import Mathlib

/-
Shallow embedding of the RayTracingWeekQuest renderer core.

Doubles are modelled as real numbers; `static_cast<int>` is modelled as
truncation toward zero; the `std::domain_error` exceptions thrown by the
vector division guards are modelled with `Except String`.

Sources embedded:
  * vec3.h            (src/unnamed/part_002)  - vec3 algebra, division guards
  * ray.h             (src/headers/ray.h)     - ray::at
  * hittable.h        (inside src/headers/sphere.h bundle) - hit_record,
                        set_face_normal
  * sphere.h          (src/headers/sphere.h)  - sphere::hit
  * hittable_list.h   (src/unnamed/part_003)  - hittable_list::hit
  * color.h           (src/headers/color.h)   - linear_to_gamma, write_color
  * main.cpp          (src/src/main.cpp)      - hit_sphere, ray_color, main
The interval class (interval.h) is not present under src/ and is modelled
from the spec (see `interval` below).
-/

noncomputable section

/-- `std::numeric_limits<double>::denorm_min()`, the smallest representable
positive double, `2 ^ (-1074)`. -/
def denormMin : ℝ := 1 / 2 ^ 1074

lemma denormMin_pos : 0 < denormMin := by
  unfold denormMin; positivity

lemma denormMin_lt_one : denormMin < 1 := by
  rw [denormMin, div_lt_one (by positivity)]
  exact one_lt_pow₀ one_lt_two (by norm_num)

/-- Helper for discharging the near-zero-division guards at concrete values:
any value of magnitude at least one is above `denormMin`. -/
lemma not_abs_le_denormMin {x : ℝ} (hx : 1 ≤ |x|) : ¬ |x| ≤ denormMin :=
  fun h => absurd (lt_of_lt_of_le denormMin_lt_one (hx.trans h)) (lt_irrefl _)

/-- vec3 from vec3.h: three real components.  The C++ class stores them in an
array `e[3]` with accessors `x()`, `y()`, `z()`; we use named fields. -/
structure vec3 where
  x : ℝ
  y : ℝ
  z : ℝ

instance : Inhabited vec3 := ⟨⟨0, 0, 0⟩⟩

/-- `operator-()` (unary negation). -/
instance : Neg vec3 := ⟨fun v => ⟨-v.x, -v.y, -v.z⟩⟩

/-- `operator+(u, v)`. -/
instance : Add vec3 := ⟨fun u v => ⟨u.x + v.x, u.y + v.y, u.z + v.z⟩⟩

/-- `operator-(u, v)` is defined in the source as `u + (-v)`. -/
instance : Sub vec3 := ⟨fun u v => u + (-v)⟩

/-- `operator*(t, v)` (scalar times vector). -/
instance : HMul ℝ vec3 vec3 := ⟨fun t v => ⟨t * v.x, t * v.y, t * v.z⟩⟩

/-- `operator*(v, t)` is defined in the source as `t * v`. -/
instance : HMul vec3 ℝ vec3 := ⟨fun v t => t * v⟩

/-- `operator*(u, v)` (element-wise product). -/
instance : Mul vec3 := ⟨fun u v => ⟨u.x * v.x, u.y * v.y, u.z * v.z⟩⟩

@[simp] lemma vec3_neg_def (v : vec3) : -v = ⟨-v.x, -v.y, -v.z⟩ := rfl
@[simp] lemma vec3_add_def (u v : vec3) :
    u + v = ⟨u.x + v.x, u.y + v.y, u.z + v.z⟩ := rfl
@[simp] lemma vec3_sub_def (u v : vec3) :
    u - v = ⟨u.x - v.x, u.y - v.y, u.z - v.z⟩ := by
  show u + (-v) = _
  simp [sub_eq_add_neg]
@[simp] lemma vec3_smul_def (t : ℝ) (v : vec3) :
    t * v = (⟨t * v.x, t * v.y, t * v.z⟩ : vec3) := rfl
@[simp] lemma vec3_mul_scalar_def (v : vec3) (t : ℝ) :
    v * t = (⟨t * v.x, t * v.y, t * v.z⟩ : vec3) := rfl
@[simp] lemma vec3_hadamard_def (u v : vec3) :
    u * v = ⟨u.x * v.x, u.y * v.y, u.z * v.z⟩ := rfl

/-- `length_squared()`: `e[0]*e[0] + e[1]*e[1] + e[2]*e[2]`. -/
def vec3.length_squared (v : vec3) : ℝ := v.x * v.x + v.y * v.y + v.z * v.z

/-- `length()`: `sqrt(length_squared())`. -/
def vec3.length (v : vec3) : ℝ := Real.sqrt v.length_squared

/-- `dot(u, v)`. -/
def dot (u v : vec3) : ℝ := u.x * v.x + u.y * v.y + u.z * v.z

/-- `point3` is an alias of `vec3` in the source. -/
def point3 := vec3

lemma vec3.length_squared_nonneg (v : vec3) : 0 ≤ v.length_squared := by
  unfold vec3.length_squared
  nlinarith [mul_self_nonneg v.x, mul_self_nonneg v.y, mul_self_nonneg v.z]

lemma vec3.length_nonneg (v : vec3) : 0 ≤ v.length :=
  Real.sqrt_nonneg _

/-- `operator/(v, t)`: guarded against near-zero divisors, then `v * (1/t)`.
Raising `std::domain_error` is modelled as `Except.error` with the message. -/
def vdiv (v : vec3) (t : ℝ) : Except String vec3 :=
  if |t| ≤ denormMin then .error "div-by-zero or divisor too small"
  else .ok (v * (1 / t))

/-- `vec3::operator/=(t)`: the same guard, then `*this *= 1/t`
(each component multiplied by `1/t`). -/
def vdivAssign (v : vec3) (t : ℝ) : Except String vec3 :=
  if |t| ≤ denormMin then .error "div-by-zero or divisor too small"
  else .ok ⟨v.x * (1 / t), v.y * (1 / t), v.z * (1 / t)⟩

/-- `unit_vector(v)`: guard on the length, then `v / len`. -/
def unit_vector (v : vec3) : Except String vec3 :=
  if |v.length| ≤ denormMin then .error "div-by-zero or length too small"
  else vdiv v v.length

/-- Modelled from the spec: `interval.h` is not under `src/`; spec section 4.3
gives `contains(x) = min ≤ x ≤ max`, `surrounds(x) = min < x < max`, and
`clamp(x)` returning `min` if `x < min`, `max` if `x > max`, else `x`. -/
structure interval where
  min : ℝ
  max : ℝ

/-- Modelled from the spec: `contains(x) = min ≤ x ≤ max`. -/
def interval.contains (i : interval) (x : ℝ) : Prop := i.min ≤ x ∧ x ≤ i.max

/-- Modelled from the spec: `surrounds(x) = min < x < max` (open). -/
def interval.surrounds (i : interval) (x : ℝ) : Prop := i.min < x ∧ x < i.max

instance (i : interval) (x : ℝ) : Decidable (i.surrounds x) :=
  inferInstanceAs (Decidable (_ ∧ _))

/-- Modelled from the spec: `clamp(x)` projects `x` into `[min, max]`. -/
def interval.clamp (i : interval) (x : ℝ) : ℝ :=
  if x < i.min then i.min else if x > i.max then i.max else x

/-- ray from ray.h: origin plus direction. -/
structure ray where
  orig : vec3
  dir : vec3

/-- `ray::at(t) = orig + t * dir`. -/
def ray.at (r : ray) (t : ℝ) : vec3 := r.orig + t * r.dir

/-- `static_cast<int>` on a double: truncation toward zero. -/
def castInt (x : ℝ) : ℤ := if 0 ≤ x then ⌊x⌋ else ⌈x⌉

/-- `linear_to_gamma` from color.h: `sqrt` for positive inputs, else `0`. -/
def linear_to_gamma (linear_component : ℝ) : ℝ :=
  if linear_component > 0 then Real.sqrt linear_component else 0

/-- The `static const interval intensity(0.000, 0.999)` of `write_color`. -/
def intensity : interval := ⟨0.000, 0.999⟩

/-- `write_color` from color.h, returning the byte triple it prints:
gamma-correct each channel, clamp by `intensity`, scale by 255 and truncate. -/
def write_color (pixel_color : vec3) : ℤ × ℤ × ℤ :=
  (castInt (255 * intensity.clamp (linear_to_gamma pixel_color.x)),
   castInt (255 * intensity.clamp (linear_to_gamma pixel_color.y)),
   castInt (255 * intensity.clamp (linear_to_gamma pixel_color.z)))

/-- hit_record from hittable.h: point, normal, ray parameter, face flag.
The C++ default constructor zero-initializes the vectors and leaves `t` and
`front_face` indeterminate; the model picks `0` and `false` (never read
before being written). -/
structure hit_record where
  p : vec3
  normal : vec3
  t : ℝ
  front_face : Bool

instance : Inhabited hit_record := ⟨⟨⟨0, 0, 0⟩, ⟨0, 0, 0⟩, 0, false⟩⟩

/-- `hit_record::set_face_normal`: `front_face = dot(direction, outward) < 0`;
the stored normal is the outward normal if front face, else its negation. -/
def hit_record.set_face_normal (rec : hit_record) (r : ray)
    (outward_normal : vec3) : hit_record :=
  let ff : Bool := if dot r.dir outward_normal < 0 then true else false
  { rec with front_face := ff,
             normal := if ff then outward_normal else -outward_normal }

/-- sphere from sphere.h (the `shared_ptr<material>` member is an opaque
payload never used by the intersection math and is omitted). -/
structure sphere where
  center : vec3
  radius : ℝ

/-- The sphere constructor: `radius(std::fmax(0, radius))`. -/
def sphere.mk' (center : vec3) (radius : ℝ) : sphere :=
  ⟨center, max 0 radius⟩

/-- Local `oc = center - r.origin()` of `sphere::hit`. -/
def sphere.hitOC (s : sphere) (r : ray) : vec3 := s.center - r.orig

/-- Local `a = r.direction().length_squared()` of `sphere::hit`. -/
def sphere.hitA (s : sphere) (r : ray) : ℝ := r.dir.length_squared

/-- Local `h = dot(r.direction(), oc)` of `sphere::hit`. -/
def sphere.hitH (s : sphere) (r : ray) : ℝ := dot r.dir (s.hitOC r)

/-- Local `c = oc.length_squared() - radius*radius` of `sphere::hit`. -/
def sphere.hitC (s : sphere) (r : ray) : ℝ :=
  (s.hitOC r).length_squared - s.radius * s.radius

/-- Local `discriminant = h*h - a*c` of `sphere::hit`. -/
def sphere.hitDisc (s : sphere) (r : ray) : ℝ :=
  s.hitH r * s.hitH r - s.hitA r * s.hitC r

/-- The first root tried, `(h - sqrtd) / a`. -/
def sphere.root1 (s : sphere) (r : ray) : ℝ :=
  (s.hitH r - Real.sqrt (s.hitDisc r)) / s.hitA r

/-- The second root tried, `(h + sqrtd) / a`. -/
def sphere.root2 (s : sphere) (r : ray) : ℝ :=
  (s.hitH r + Real.sqrt (s.hitDisc r)) / s.hitA r

/-- The tail of `sphere::hit` once a root has qualified:
`rec.t = root; rec.p = r.at(rec.t);` then the outward normal
`(rec.p - center) / radius` (whose division guard can throw) and
`rec.set_face_normal(r, outward_normal)`.  (`rec.mat = mat` is dropped with
the material payload.) -/
def sphere.hitFinish (s : sphere) (r : ray) (root : ℝ) (rec : hit_record) :
    Except String (Bool × hit_record) :=
  let rec' : hit_record := { rec with t := root, p := r.at root }
  match vdiv (rec'.p - s.center) s.radius with
  | .error e => .error e
  | .ok outward_normal => .ok (true, rec'.set_face_normal r outward_normal)

/-- `sphere::hit`.  The mutable out-parameter `rec` is passed explicitly and
the `bool` return is paired with its final state.  When `a = 0` (zero ray
direction) the C++ divisions `(h ± sqrtd)/a` produce NaN under IEEE and both
`surrounds` tests are false; this is modelled by the explicit `hitA = 0`
miss branch. -/
def sphere.hit (s : sphere) (r : ray) (ray_t : interval) (rec : hit_record) :
    Except String (Bool × hit_record) :=
  if s.hitDisc r < 0 then .ok (false, rec)
  else if s.hitA r = 0 then .ok (false, rec)
  else if ¬ ray_t.surrounds (s.root1 r) then
    if ¬ ray_t.surrounds (s.root2 r) then .ok (false, rec)
    else s.hitFinish r (s.root2 r) rec
  else s.hitFinish r (s.root1 r) rec

/-- The loop body state of `hittable_list::hit`: iterate over the members,
querying each against `interval(ray_t.min, closest_so_far)`. -/
def hittable_list.hitAux (r : ray) (tmin : ℝ) :
    List sphere → hit_record → Bool → ℝ → hit_record →
    Except String (Bool × hit_record)
  | [], _, hit_anything, _, rec => .ok (hit_anything, rec)
  | object :: rest, temp_rec, hit_anything, closest_so_far, rec =>
    match object.hit r ⟨tmin, closest_so_far⟩ temp_rec with
    | .error e => .error e
    | .ok (true, temp') => hittable_list.hitAux r tmin rest temp' true temp'.t temp'
    | .ok (false, temp') => hittable_list.hitAux r tmin rest temp' hit_anything closest_so_far rec

/-- `hittable_list::hit`: `temp_rec` starts default-constructed,
`hit_anything = false`, `closest_so_far = ray_t.max`. -/
def hittable_list.hit (objects : List sphere) (r : ray) (ray_t : interval)
    (rec : hit_record) : Except String (Bool × hit_record) :=
  hittable_list.hitAux r ray_t.min objects default false ray_t.max rec

/-- `color` is an alias of `vec3` in the source. -/
def color := vec3

/-- The global color constants of main.cpp that the claims touch. -/
def blue : vec3 := ⟨0, 0, 1⟩

def green : vec3 := ⟨0, 1, 0⟩

def white : vec3 := ⟨1, 1, 1⟩

/-- `hit_sphere` from main.cpp: full quadratic discriminant test,
`return (discriminant >= 0)`. -/
def hit_sphere (center : vec3) (radius : ℝ) (r : ray) : Bool :=
  let oc : vec3 := center - r.orig
  let a := dot r.dir r.dir
  let b := -2.0 * dot r.dir oc
  let c := dot oc oc - radius * radius
  if b * b - 4 * a * c ≥ 0 then true else false

/-- The local blend coefficient `a = 0.5 * (unit_direction.y() + 2.0)` of the
miss branch of `ray_color` in main.cpp. -/
def miss_blend_coeff (unit_direction : vec3) : ℝ :=
  0.5 * (unit_direction.y + 2.0)

/-- `ray_color` from main.cpp: normalize the direction (which can throw),
test the hard-coded sphere, and blend.  On a hit the blend is between
`green` and `blue`; on a miss between `white` and `(0.5, 0.7, 1.0)`. -/
def ray_color (r : ray) : Except String vec3 :=
  match unit_vector r.dir with
  | .error e => .error e
  | .ok unit_direction =>
    if hit_sphere ⟨0, 0, -1⟩ 0.5 r then
      let a := 0.5 * (unit_direction.y - unit_direction.x + 1.0)
      .ok ((1.0 - a) * green + a * blue)
    else
      let a := miss_blend_coeff unit_direction
      .ok ((1.0 - a) * white + a * (⟨0.5, 0.7, 1.0⟩ : vec3))

/-- One output line of main.cpp's stream: the three header lines, then one
line of three space-separated byte values per pixel. -/
inductive outLine where
  | headerP3 : outLine
  | headerDims : ℤ → ℤ → outLine
  | headerMax : ℝ → outLine
  | pixel : ℤ × ℤ × ℤ → outLine

/-- `image_height = static_cast<int>(image_width / aspect_ratio)`, floored
to at least 1, with `image_width = 800` and aspect ratio `16/9`. -/
def image_height : ℤ :=
  let h := castInt ((800 : ℝ) / (16.0 / 9.0))
  if h < 1 then 1 else h

/-- `viewport_width = viewport_height * (double(image_width)/image_height)`
with `viewport_height = 2.0`. -/
def viewport_width : ℝ := 2.0 * ((800 : ℝ) / (image_height : ℝ))

def viewport_u : vec3 := ⟨viewport_width, 0, 0⟩

def viewport_v : vec3 := ⟨0, -2.0, 0⟩

def camera_center : vec3 := ⟨0, 0, 0⟩

/-- The camera setup of main.cpp before the render loop; the four vector
divisions go through the guarded `operator/` and can in principle throw. -/
def cameraSetup : Except String (vec3 × vec3 × vec3) := do
  let pixel_delta_u ← vdiv viewport_u 800
  let pixel_delta_v ← vdiv viewport_v (image_height : ℝ)
  let vu2 ← vdiv viewport_u 2
  let vv2 ← vdiv viewport_v 2
  let viewport_upper_left := camera_center - (⟨0, 0, 1.0⟩ : vec3) - vu2 - vv2
  let pixel00_loc := viewport_upper_left + (0.5 : ℝ) * (pixel_delta_u + pixel_delta_v)
  pure (pixel_delta_u, pixel_delta_v, pixel00_loc)

/-- The ray cast for pixel `(row, col)`:
`pixel_center = pixel00_loc + col*pixel_delta_u + row*pixel_delta_v`,
`ray_direction = pixel_center - camera_center`. -/
def pixelRay (pdu pdv p00 : vec3) (row col : ℕ) : ray :=
  ⟨camera_center, p00 + (col : ℝ) * pdu + (row : ℝ) * pdv - camera_center⟩

/-- The render loop over the remaining pixels: each iteration resolves
`ray_color` (an exception stops the program, so nothing further is written)
and appends the `write_color` line. -/
def renderPixels (pdu pdv p00 : vec3) : List (ℕ × ℕ) → List outLine
  | [] => []
  | p :: rest =>
    match ray_color (pixelRay pdu pdv p00 p.1 p.2) with
    | .error _ => []
    | .ok c => outLine.pixel (write_color c) :: renderPixels pdu pdv p00 rest

/-- Row-major pixel order: rows top to bottom, columns left to right. -/
def rowMajor (h w : ℕ) : List (ℕ × ℕ) :=
  (List.range h).flatMap fun row => (List.range w).map fun col => (row, col)

/-- The full output stream of main.cpp: if the camera setup throws, nothing
is printed; otherwise the header (P3, dimensions, channel range 255.0) is
printed once, followed by the render loop's pixel lines. -/
def mainOutput : List outLine :=
  match cameraSetup with
  | .error _ => []
  | .ok (pdu, pdv, p00) =>
    outLine.headerP3 :: outLine.headerDims 800 image_height ::
      outLine.headerMax 255.0 ::
      renderPixels pdu pdv p00 (rowMajor (Int.toNat image_height) 800)

lemma interval_clamp_mem {i : interval} (h : i.min ≤ i.max) (x : ℝ) :
    i.min ≤ i.clamp x ∧ i.clamp x ≤ i.max := by
  unfold interval.clamp
  split_ifs with h1 h2 <;> constructor <;> linarith

lemma castInt_floor {x : ℝ} (hx : 0 ≤ x) : castInt x = ⌊x⌋ := by
  unfold castInt; simp [hx]

/-- Every byte emitted by `write_color` lies in `[0, 254]` (in particular in
`[0, 255]`): the clamp bounds the scaled channel in `[0, 254.745]`. -/
lemma write_color_channel_bounds (x : ℝ) :
    0 ≤ castInt (255 * intensity.clamp x) ∧
      castInt (255 * intensity.clamp x) ≤ 254 := by
  have hm : intensity.min ≤ intensity.max := by norm_num [intensity]
  obtain ⟨h0, h1⟩ := interval_clamp_mem hm x
  have hlo : (0 : ℝ) ≤ 255 * intensity.clamp x := by
    have : intensity.min = 0 := by norm_num [intensity]
    nlinarith
  have hhi : 255 * intensity.clamp x ≤ 254.745 := by
    have : intensity.max = 0.999 := by norm_num [intensity]
    nlinarith
  rw [castInt_floor hlo]
  constructor
  · exact Int.floor_nonneg.mpr hlo
  · have hR : (⌊255 * intensity.clamp x⌋ : ℝ) < 255 :=
      lt_of_le_of_lt (le_trans (Int.floor_le _) hhi) (by norm_num)
    have hZ : ⌊255 * intensity.clamp x⌋ < 255 := by exact_mod_cast hR
    omega

lemma write_color_bounds (c : vec3) :
    0 ≤ (write_color c).1 ∧ (write_color c).1 ≤ 255 ∧
    0 ≤ (write_color c).2.1 ∧ (write_color c).2.1 ≤ 255 ∧
    0 ≤ (write_color c).2.2 ∧ (write_color c).2.2 ≤ 255 := by
  obtain ⟨a1, a2⟩ := write_color_channel_bounds (linear_to_gamma c.x)
  obtain ⟨b1, b2⟩ := write_color_channel_bounds (linear_to_gamma c.y)
  obtain ⟨c1, c2⟩ := write_color_channel_bounds (linear_to_gamma c.z)
  exact ⟨a1, le_trans a2 (by norm_num), b1, le_trans b2 (by norm_num),
    c1, le_trans c2 (by norm_num)⟩

lemma linear_to_gamma_zero : linear_to_gamma 0 = 0 := by
  norm_num [linear_to_gamma]

lemma linear_to_gamma_one : linear_to_gamma 1 = 1 := by
  norm_num [linear_to_gamma]

lemma write_color_black : write_color ⟨0, 0, 0⟩ = (0, 0, 0) := by
  unfold write_color
  norm_num [linear_to_gamma_zero, intensity, interval.clamp, castInt]

lemma write_color_white : write_color ⟨1, 1, 1⟩ = (254, 254, 254) := by
  have hc : intensity.clamp (linear_to_gamma 1) = 0.999 := by
    norm_num [linear_to_gamma_one, intensity, interval.clamp]
  have hf : castInt (255 * (0.999 : ℝ)) = 254 := by
    rw [castInt_floor (by norm_num), Int.floor_eq_iff]
    norm_num
  unfold write_color
  rw [hc, hf]

/-- C1 counterexample: `write_color` applied to the linear color `(1,1,1)`
emits the byte triple `(254,254,254)`, not `(255,255,255)` as claimed: the
clamp caps the gamma-corrected channel at `0.999` and `255 * 0.999 = 254.745`
truncates to `254`. -/
theorem write_color_white_not_255 :
    write_color ⟨1, 1, 1⟩ = (254, 254, 254) ∧
      write_color ⟨1, 1, 1⟩ ≠ (255, 255, 255) := by
  refine ⟨write_color_white, ?_⟩
  rw [write_color_white]
  intro h
  exact absurd (congrArg Prod.fst h) (by norm_num)

/-- C1 (amended): under the pipeline gamma-correct, clamp to `[0, 0.999]`,
scale by 255 and truncate, the linear color `(0,0,0)` emits the byte triple
`(0,0,0)` and the linear color `(1,1,1)` emits `(254,254,254)`. -/
theorem write_color_round_trip :
    write_color ⟨0, 0, 0⟩ = (0, 0, 0) ∧
      write_color ⟨1, 1, 1⟩ = (254, 254, 254) :=
  ⟨write_color_black, write_color_white⟩

/-- C8: the three guarded operations — `operator/(v,t)`, `vec3::operator/=`
and `unit_vector` — raise the division error exactly when the divisor's
magnitude (for `unit_vector`, the vector's length) is at or below the
smallest representable positive value `denormMin`, and otherwise return the
component-wise scaled vector. -/
theorem division_guard (v : vec3) (t : ℝ) :
    (vdiv v t = .error "div-by-zero or divisor too small" ↔ |t| ≤ denormMin) ∧
    (vdivAssign v t = .error "div-by-zero or divisor too small" ↔ |t| ≤ denormMin) ∧
    (¬ |t| ≤ denormMin → vdiv v t = .ok ⟨v.x / t, v.y / t, v.z / t⟩) ∧
    (¬ |t| ≤ denormMin → vdivAssign v t = .ok ⟨v.x / t, v.y / t, v.z / t⟩) ∧
    (unit_vector v = .error "div-by-zero or length too small" ↔
      |v.length| ≤ denormMin) ∧
    (¬ |v.length| ≤ denormMin →
      unit_vector v = .ok ⟨v.x / v.length, v.y / v.length, v.z / v.length⟩) := by
  have hdiv : ∀ u : ℝ, ¬ |u| ≤ denormMin →
      vdiv v u = .ok ⟨v.x / u, v.y / u, v.z / u⟩ := by
    intro u hu
    unfold vdiv
    rw [if_neg hu]
    simp [div_eq_mul_inv, mul_comm]
  refine ⟨?_, ?_, hdiv t, ?_, ?_, ?_⟩
  · unfold vdiv; split_ifs with h <;> simp [h]
  · unfold vdivAssign; split_ifs with h <;> simp [h]
  · intro h
    unfold vdivAssign
    rw [if_neg h]
    simp [div_eq_mul_inv]
  · unfold unit_vector
    split_ifs with h
    · simp [h]
    · rw [hdiv _ h]; simp [h]
  · intro h
    unfold unit_vector
    rw [if_neg h]
    exact hdiv _ h

/-- C8 witness: at `v = (1,2,3)`, dividing by `2` succeeds with the halved
components, while dividing by `0` (and normalizing the zero vector, whose
length is `0`) raises the guard error. -/
theorem division_guard_witness :
    vdiv ⟨1, 2, 3⟩ 2 = .ok ⟨1 / 2, 2 / 2, 3 / 2⟩ ∧
      vdiv ⟨1, 2, 3⟩ 0 = .error "div-by-zero or divisor too small" ∧
      unit_vector ⟨0, 0, 0⟩ = .error "div-by-zero or length too small" := by
  have h2 : ¬ |(2 : ℝ)| ≤ denormMin := not_abs_le_denormMin (by norm_num)
  have h0 : |(0 : ℝ)| ≤ denormMin := by
    simp [le_of_lt denormMin_pos]
  have hlen : |(vec3.mk 0 0 0).length| ≤ denormMin := by
    have : (vec3.mk 0 0 0).length = 0 := by
      simp [vec3.length, vec3.length_squared]
    rw [this]
    simp [le_of_lt denormMin_pos]
  exact ⟨(division_guard ⟨1, 2, 3⟩ 2).2.2.1 h2,
    (division_guard ⟨1, 2, 3⟩ 0).1.mpr h0,
    (division_guard ⟨0, 0, 0⟩ 0).2.2.2.2.1.mpr hlen⟩

/-- The root selected by the branch structure of `sphere::hit`: the near root
`(h - sqrtd)/a` if it is strictly inside the interval, else the far root, else
none; `none` as well when the discriminant is negative or `a = 0`. -/
def sphere.pickedRoot (s : sphere) (r : ray) (i : interval) : Option ℝ :=
  if s.hitDisc r < 0 then none
  else if s.hitA r = 0 then none
  else if i.surrounds (s.root1 r) then some (s.root1 r)
  else if i.surrounds (s.root2 r) then some (s.root2 r)
  else none

lemma sphere.hit_eq_pickedRoot (s : sphere) (r : ray) (i : interval)
    (rec : hit_record) :
    s.hit r i rec =
      match s.pickedRoot r i with
      | none => .ok (false, rec)
      | some root => s.hitFinish r root rec := by
  unfold sphere.hit sphere.pickedRoot
  split_ifs <;> rfl

/-- The outward normal value on a successful hit, `(p - center) * (1/radius)`. -/
def sphere.outwardAt (s : sphere) (r : ray) (root : ℝ) : vec3 :=
  (r.at root - s.center) * (1 / s.radius)

/-- The hit record produced by a successful `sphere::hit` at parameter
`root`: every field is freshly written, so it does not depend on the record
passed in. -/
def sphere.hitRecordAt (s : sphere) (r : ray) (root : ℝ) : hit_record :=
  hit_record.set_face_normal ⟨r.at root, ⟨0, 0, 0⟩, root, false⟩ r
    (s.outwardAt r root)

lemma sphere.hitRecordAt_t (s : sphere) (r : ray) (root : ℝ) :
    (s.hitRecordAt r root).t = root := rfl

lemma sphere.hitRecordAt_p (s : sphere) (r : ray) (root : ℝ) :
    (s.hitRecordAt r root).p = r.at root := rfl

lemma sphere.hitFinish_ok (s : sphere) (r : ray) (root : ℝ) (rec : hit_record)
    (h : ¬ |s.radius| ≤ denormMin) :
    s.hitFinish r root rec = .ok (true, s.hitRecordAt r root) := by
  unfold sphere.hitFinish vdiv
  simp only [if_neg h]
  rfl

lemma sphere.hitFinish_error (s : sphere) (r : ray) (root : ℝ)
    (rec : hit_record) (h : |s.radius| ≤ denormMin) :
    s.hitFinish r root rec = .error "div-by-zero or divisor too small" := by
  unfold sphere.hitFinish vdiv
  simp only [if_pos h]

/-- The observable outcome of `sphere::hit`, independent of the record passed
in: `ok none` is a miss, `ok (some root)` a hit at `root`, `error` the
propagated division error of the outward-normal computation. -/
def sphere.outcome (s : sphere) (r : ray) (i : interval) :
    Except String (Option ℝ) :=
  match s.pickedRoot r i with
  | none => .ok none
  | some root =>
    if |s.radius| ≤ denormMin then .error "div-by-zero or divisor too small"
    else .ok (some root)

lemma sphere.hit_picked_none {s : sphere} {r : ray} {i : interval}
    (rec : hit_record) (hp : s.pickedRoot r i = none) :
    s.hit r i rec = .ok (false, rec) := by
  rw [sphere.hit_eq_pickedRoot, hp]

lemma sphere.hit_picked_some {s : sphere} {r : ray} {i : interval} {root : ℝ}
    (rec : hit_record) (hp : s.pickedRoot r i = some root) :
    s.hit r i rec = s.hitFinish r root rec := by
  rw [sphere.hit_eq_pickedRoot, hp]

lemma sphere.outcome_picked_none {s : sphere} {r : ray} {i : interval}
    (hp : s.pickedRoot r i = none) : s.outcome r i = .ok none := by
  rw [sphere.outcome, hp]

lemma sphere.outcome_picked_some {s : sphere} {r : ray} {i : interval}
    {root : ℝ} (hp : s.pickedRoot r i = some root) :
    s.outcome r i =
      if |s.radius| ≤ denormMin then .error "div-by-zero or divisor too small"
      else .ok (some root) := by
  rw [sphere.outcome, hp]

lemma sphere.hit_of_outcome_none {s : sphere} {r : ray} {i : interval}
    (rec : hit_record) (h : s.outcome r i = .ok none) :
    s.hit r i rec = .ok (false, rec) := by
  rcases hp : s.pickedRoot r i with _ | root
  · exact s.hit_picked_none rec hp
  · rw [s.outcome_picked_some hp] at h
    by_cases hrad : |s.radius| ≤ denormMin
    · rw [if_pos hrad] at h; simp at h
    · rw [if_neg hrad] at h; simp at h

lemma sphere.hit_of_outcome_some {s : sphere} {r : ray} {i : interval}
    {root : ℝ} (rec : hit_record) (h : s.outcome r i = .ok (some root)) :
    s.hit r i rec = .ok (true, s.hitRecordAt r root) := by
  rcases hp : s.pickedRoot r i with _ | root'
  · rw [s.outcome_picked_none hp] at h; simp at h
  · rw [s.outcome_picked_some hp] at h
    by_cases hrad : |s.radius| ≤ denormMin
    · rw [if_pos hrad] at h; simp at h
    · rw [if_neg hrad] at h
      simp only [Except.ok.injEq, Option.some.injEq] at h
      rw [s.hit_picked_some rec hp, ← h]
      exact s.hitFinish_ok r root' rec hrad

lemma sphere.hit_of_outcome_error {s : sphere} {r : ray} {i : interval}
    {e : String} (rec : hit_record) (h : s.outcome r i = .error e) :
    s.hit r i rec = .error e := by
  rcases hp : s.pickedRoot r i with _ | root'
  · rw [s.outcome_picked_none hp] at h; simp at h
  · rw [s.outcome_picked_some hp] at h
    by_cases hrad : |s.radius| ≤ denormMin
    · rw [if_pos hrad] at h
      simp only [Except.error.injEq] at h
      rw [s.hit_picked_some rec hp, ← h]
      exact s.hitFinish_error r root' rec hrad
    · rw [if_neg hrad] at h; simp at h

/-- Converse direction: a `true` return of `sphere::hit` determines the
outcome and the record (which does not depend on the record passed in). -/
lemma sphere.hit_true_outcome {s : sphere} {r : ray} {i : interval}
    {rec out : hit_record} (h : s.hit r i rec = .ok (true, out)) :
    s.outcome r i = .ok (some out.t) ∧ out = s.hitRecordAt r out.t := by
  rcases hp : s.pickedRoot r i with _ | root
  · rw [s.hit_picked_none rec hp] at h; simp at h
  · rw [s.hit_picked_some rec hp] at h
    by_cases hrad : |s.radius| ≤ denormMin
    · rw [s.hitFinish_error r root rec hrad] at h; simp at h
    · rw [s.hitFinish_ok r root rec hrad] at h
      simp only [Except.ok.injEq, Prod.mk.injEq, true_and] at h
      subst h
      rw [s.outcome_picked_some hp, if_neg hrad, sphere.hitRecordAt_t]
      exact ⟨rfl, rfl⟩

lemma sphere.hit_false_outcome {s : sphere} {r : ray} {i : interval}
    {rec out : hit_record} (h : s.hit r i rec = .ok (false, out)) :
    out = rec ∧ s.outcome r i = .ok none := by
  rcases hp : s.pickedRoot r i with _ | root
  · rw [s.hit_picked_none rec hp] at h
    simp only [Except.ok.injEq, Prod.mk.injEq, true_and] at h
    exact ⟨h.symm, s.outcome_picked_none hp⟩
  · rw [s.hit_picked_some rec hp] at h
    by_cases hrad : |s.radius| ≤ denormMin
    · rw [s.hitFinish_error r root rec hrad] at h; simp at h
    · rw [s.hitFinish_ok r root rec hrad] at h; simp at h

lemma sphere.hit_error_outcome {s : sphere} {r : ray} {i : interval}
    {rec : hit_record} {e : String} (h : s.hit r i rec = .error e) :
    s.outcome r i = .error e := by
  rcases hp : s.pickedRoot r i with _ | root
  · rw [s.hit_picked_none rec hp] at h; simp at h
  · rw [s.hit_picked_some rec hp] at h
    by_cases hrad : |s.radius| ≤ denormMin
    · rw [s.hitFinish_error r root rec hrad] at h
      simp only [Except.error.injEq] at h
      rw [s.outcome_picked_some hp, if_pos hrad, h]
    · rw [s.hitFinish_ok r root rec hrad] at h; simp at h

lemma sphere.hitA_pos {s : sphere} {r : ray} (h : s.hitA r ≠ 0) :
    0 < s.hitA r :=
  lt_of_le_of_ne (vec3.length_squared_nonneg r.dir) (Ne.symm h)

lemma sphere.root1_le_root2 {s : sphere} {r : ray} (h : s.hitA r ≠ 0) :
    s.root1 r ≤ s.root2 r := by
  unfold sphere.root1 sphere.root2
  have ha := sphere.hitA_pos h
  have hs := Real.sqrt_nonneg (s.hitDisc r)
  exact (div_le_div_right ha).mpr (by linarith)

/-- Facts recoverable from `pickedRoot` yielding a root. -/
lemma sphere.pickedRoot_spec {s : sphere} {r : ray} {i : interval} {root : ℝ}
    (h : s.pickedRoot r i = some root) :
    ¬ s.hitDisc r < 0 ∧ s.hitA r ≠ 0 ∧ i.surrounds root ∧
      (root = s.root1 r ∨ (root = s.root2 r ∧ ¬ i.surrounds (s.root1 r))) := by
  unfold sphere.pickedRoot at h
  split_ifs at h with h1 h2 h3 h4 <;>
    simp only [Option.some.injEq] at h
  · exact ⟨h1, h2, h ▸ h3, Or.inl h.symm⟩
  · exact ⟨h1, h2, h ▸ h4, Or.inr ⟨h.symm, h3⟩⟩

/-- Shrinking the far bound above the returned root preserves the root. -/
lemma sphere.pickedRoot_some_lt {s : sphere} {r : ray} {lo hi hi' root : ℝ}
    (hsub : hi' ≤ hi) (hroot : root < hi')
    (h : s.pickedRoot r ⟨lo, hi⟩ = some root) :
    s.pickedRoot r ⟨lo, hi'⟩ = some root := by
  obtain ⟨h1, h2, hsur, hcase⟩ := sphere.pickedRoot_spec h
  unfold sphere.pickedRoot
  rw [if_neg h1, if_neg h2]
  rcases hcase with h3 | ⟨h3, h4⟩
  · rw [if_pos (show interval.surrounds ⟨lo, hi'⟩ (s.root1 r) from
      h3 ▸ ⟨hsur.1, hroot⟩), h3]
  · have hn1 : ¬ interval.surrounds ⟨lo, hi'⟩ (s.root1 r) := by
      intro hc
      exact h4 ⟨hc.1, lt_of_lt_of_le hc.2 hsub⟩
    rw [if_neg hn1, if_pos (show interval.surrounds ⟨lo, hi'⟩ (s.root2 r) from
      h3 ▸ ⟨hsur.1, hroot⟩), h3]

/-- Shrinking the far bound to (or below) the returned root turns the hit
into a miss: the near root is no longer strictly inside, and the far root is
at least the near one. -/
lemma sphere.pickedRoot_some_ge {s : sphere} {r : ray} {lo hi hi' root : ℝ}
    (hroot : hi' ≤ root) (h : s.pickedRoot r ⟨lo, hi⟩ = some root) :
    s.pickedRoot r ⟨lo, hi'⟩ = none := by
  obtain ⟨h1, h2, hsur, hcase⟩ := sphere.pickedRoot_spec h
  have h12 := sphere.root1_le_root2 h2
  unfold sphere.pickedRoot
  rw [if_neg h1, if_neg h2]
  rcases hcase with h3 | ⟨h3, h4⟩
  · have hn1 : ¬ interval.surrounds ⟨lo, hi'⟩ (s.root1 r) := by
      intro hc
      exact absurd (h3 ▸ hc.2) (not_lt.mpr hroot)
    have hn2 : ¬ interval.surrounds ⟨lo, hi'⟩ (s.root2 r) := by
      intro hc
      exact absurd hc.2 (not_lt.mpr (le_trans hroot (h3 ▸ h12)))
    rw [if_neg hn1, if_neg hn2]
  · have hr2hi : s.root2 r < hi := by
      rw [← h3]; exact hsur.2
    have hn1 : ¬ interval.surrounds ⟨lo, hi'⟩ (s.root1 r) := by
      intro hc
      exact h4 ⟨hc.1, lt_of_le_of_lt h12 hr2hi⟩
    have hn2 : ¬ interval.surrounds ⟨lo, hi'⟩ (s.root2 r) := by
      intro hc
      exact absurd (h3 ▸ hc.2) (not_lt.mpr hroot)
    rw [if_neg hn1, if_neg hn2]

/-- A hit inside the shrunk interval is a hit at the same root inside the
original interval. -/
lemma sphere.pickedRoot_shrink_reflect {s : sphere} {r : ray}
    {lo hi hi' root : ℝ} (hsub : hi' ≤ hi)
    (h : s.pickedRoot r ⟨lo, hi'⟩ = some root) :
    s.pickedRoot r ⟨lo, hi⟩ = some root := by
  obtain ⟨h1, h2, hsur, hcase⟩ := sphere.pickedRoot_spec h
  have h12 := sphere.root1_le_root2 h2
  unfold sphere.pickedRoot
  rw [if_neg h1, if_neg h2]
  rcases hcase with h3 | ⟨h3, h4⟩
  · rw [if_pos (show interval.surrounds ⟨lo, hi⟩ (s.root1 r) from
      h3 ▸ ⟨hsur.1, lt_of_lt_of_le hsur.2 hsub⟩), h3]
  · have hn1 : ¬ interval.surrounds ⟨lo, hi⟩ (s.root1 r) := by
      intro hc
      refine h4 ⟨hc.1, ?_⟩
      calc s.root1 r ≤ s.root2 r := h12
        _ = root := h3.symm
        _ < hi' := hsur.2
    rw [if_neg hn1, if_pos (show interval.surrounds ⟨lo, hi⟩ (s.root2 r) from
      h3 ▸ ⟨hsur.1, lt_of_lt_of_le hsur.2 hsub⟩), h3]

/-- Shrinking the far bound preserves a miss. -/
lemma sphere.pickedRoot_none_shrink {s : sphere} {r : ray} {lo hi hi' : ℝ}
    (hsub : hi' ≤ hi) (h : s.pickedRoot r ⟨lo, hi⟩ = none) :
    s.pickedRoot r ⟨lo, hi'⟩ = none := by
  rcases hq : s.pickedRoot r ⟨lo, hi'⟩ with _ | root
  · rfl
  · have hrefl := sphere.pickedRoot_shrink_reflect hsub hq
    rw [h] at hrefl
    simp at hrefl

lemma dot_neg_right (u v : vec3) : dot u (-v) = -(dot u v) := by
  unfold dot
  simp
  ring

/-- The record written by `set_face_normal` never stores a normal whose dot
product with the ray direction is positive. -/
lemma hit_record.set_face_normal_dot_nonpos (rec : hit_record) (r : ray)
    (outward_normal : vec3) :
    dot r.dir ((rec.set_face_normal r outward_normal).normal) ≤ 0 := by
  unfold hit_record.set_face_normal
  by_cases hd : dot r.dir outward_normal < 0
  · simp only [if_pos hd]
    show dot r.dir outward_normal ≤ 0
    exact le_of_lt hd
  · simp only [if_neg hd]
    show dot r.dir (-outward_normal) ≤ 0
    rw [dot_neg_right]
    linarith [not_lt.mp hd]

/-- C3 (amended): for every hit record produced by a successful
`sphere::hit`, the dot product of the ray direction with the stored normal is
non-positive; it is zero exactly at tangential hits. -/
theorem face_normal_opposes {s : sphere} {r : ray} {i : interval}
    {rec out : hit_record} (h : s.hit r i rec = .ok (true, out)) :
    dot r.dir out.normal ≤ 0 := by
  obtain ⟨-, hout⟩ := sphere.hit_true_outcome h
  rw [hout]
  exact hit_record.set_face_normal_dot_nonpos _ r _

/-- The tangent scenario used against C3: unit sphere at the origin, ray from
`(-2,1,0)` along `(1,0,0)`, grazing the sphere at `(0,1,0)`. -/
def tangentSphere : sphere := ⟨⟨0, 0, 0⟩, 1⟩

def tangentRay : ray := ⟨⟨-2, 1, 0⟩, ⟨1, 0, 0⟩⟩

lemma tangent_disc : tangentSphere.hitDisc tangentRay = 0 := by
  norm_num [sphere.hitDisc, sphere.hitA, sphere.hitH, sphere.hitC,
    sphere.hitOC, tangentSphere, tangentRay, dot, vec3.length_squared]

lemma tangent_hitA : tangentSphere.hitA tangentRay = 1 := by
  norm_num [sphere.hitA, tangentSphere, tangentRay, vec3.length_squared]

lemma tangent_root1 : tangentSphere.root1 tangentRay = 2 := by
  unfold sphere.root1
  rw [tangent_disc, tangent_hitA]
  norm_num [sphere.hitH, sphere.hitOC, tangentSphere, tangentRay, dot]

lemma tangent_picked :
    tangentSphere.pickedRoot tangentRay ⟨0, 4⟩ = some 2 := by
  unfold sphere.pickedRoot
  rw [tangent_disc, tangent_hitA, tangent_root1]
  norm_num [interval.surrounds]

lemma tangent_hit :
    tangentSphere.hit tangentRay ⟨0, 4⟩ default =
      .ok (true, ⟨⟨0, 1, 0⟩, ⟨0, -1, 0⟩, 2, false⟩) := by
  have hrad : ¬ |tangentSphere.radius| ≤ denormMin := by
    show ¬ |(1 : ℝ)| ≤ denormMin
    exact not_abs_le_denormMin (by norm_num)
  rw [sphere.hit_picked_some default tangent_picked,
    sphere.hitFinish_ok _ _ _ _ hrad]
  unfold sphere.hitRecordAt sphere.outwardAt hit_record.set_face_normal
  norm_num [ray.at, tangentSphere, tangentRay, dot]

/-- C3 counterexample: at a tangential hit the reported record's normal is
orthogonal to the ray direction, so `direction · normal < 0` fails even
though the hit succeeds. -/
theorem face_normal_tangent_cex :
    tangentSphere.hit tangentRay ⟨0, 4⟩ default =
        .ok (true, ⟨⟨0, 1, 0⟩, ⟨0, -1, 0⟩, 2, false⟩) ∧
      ¬ dot tangentRay.dir (⟨0, -1, 0⟩ : vec3) < 0 := by
  refine ⟨tangent_hit, ?_⟩
  norm_num [dot, tangentRay]

/-- C3 witness scenario: head-on hit of the unit sphere at `(0,0,-2)` from
the origin along `(0,0,-1)`; the stored normal `(0,0,1)` opposes the ray. -/
def headOnSphere : sphere := ⟨⟨0, 0, -2⟩, 1⟩

def headOnRay : ray := ⟨⟨0, 0, 0⟩, ⟨0, 0, -1⟩⟩

lemma headOn_disc : headOnSphere.hitDisc headOnRay = 1 := by
  norm_num [sphere.hitDisc, sphere.hitA, sphere.hitH, sphere.hitC,
    sphere.hitOC, headOnSphere, headOnRay, dot, vec3.length_squared]

lemma headOn_hitA : headOnSphere.hitA headOnRay = 1 := by
  norm_num [sphere.hitA, headOnSphere, headOnRay, vec3.length_squared]

lemma headOn_root1 : headOnSphere.root1 headOnRay = 1 := by
  unfold sphere.root1
  rw [headOn_disc, headOn_hitA, Real.sqrt_one]
  norm_num [sphere.hitH, sphere.hitOC, headOnSphere, headOnRay, dot]

lemma headOn_picked {hi : ℝ} (hhi : 1 < hi) :
    headOnSphere.pickedRoot headOnRay ⟨0, hi⟩ = some 1 := by
  unfold sphere.pickedRoot
  rw [headOn_disc, headOn_hitA, headOn_root1]
  norm_num [interval.surrounds, hhi]

lemma headOn_hit {hi : ℝ} (hhi : 1 < hi) :
    headOnSphere.hit headOnRay ⟨0, hi⟩ default =
      .ok (true, ⟨⟨0, 0, -1⟩, ⟨0, 0, 1⟩, 1, true⟩) := by
  have hrad : ¬ |headOnSphere.radius| ≤ denormMin := by
    show ¬ |(1 : ℝ)| ≤ denormMin
    exact not_abs_le_denormMin (by norm_num)
  rw [sphere.hit_picked_some default (headOn_picked hhi),
    sphere.hitFinish_ok _ _ _ _ hrad]
  unfold sphere.hitRecordAt sphere.outwardAt hit_record.set_face_normal
  norm_num [ray.at, headOnSphere, headOnRay, dot]

/-- C3 witness: the amended theorem applied to the head-on hit, where the
stored normal `(0,0,1)` has dot product `-1 ≤ 0` with the direction. -/
theorem face_normal_opposes_witness :
    dot headOnRay.dir
      (hit_record.mk ⟨0, 0, -1⟩ ⟨0, 0, 1⟩ 1 true).normal ≤ 0 := by
  have h : headOnSphere.hit headOnRay ⟨0, 2⟩ default =
      .ok (true, ⟨⟨0, 0, -1⟩, ⟨0, 0, 1⟩, 1, true⟩) := headOn_hit (by norm_num)
  exact face_normal_opposes h

lemma sphere.outcome_some_picked {s : sphere} {r : ray} {i : interval}
    {root : ℝ} (h : s.outcome r i = .ok (some root)) :
    s.pickedRoot r i = some root ∧ ¬ |s.radius| ≤ denormMin := by
  rcases hp : s.pickedRoot r i with _ | root'
  · rw [s.outcome_picked_none hp] at h; simp at h
  · rw [s.outcome_picked_some hp] at h
    by_cases hrad : |s.radius| ≤ denormMin
    · rw [if_pos hrad] at h; simp at h
    · rw [if_neg hrad] at h
      simp only [Except.ok.injEq, Option.some.injEq] at h
      subst h
      exact ⟨rfl, hrad⟩

/-- The quadratic identity behind `sphere::hit`: the squared distance from
the ray point at `t` to the center expands to `a·t² - 2·h·t + |oc|²`. -/
lemma sphere.dist_sq_expand (s : sphere) (r : ray) (t : ℝ) :
    (r.at t - s.center).length_squared =
      s.hitA r * (t * t) - 2 * t * s.hitH r + (s.hitOC r).length_squared := by
  unfold sphere.hitA sphere.hitH sphere.hitOC ray.at vec3.length_squared dot
  simp
  ring

/-- Either selected root satisfies the quadratic `a·t² - 2·h·t + c = 0`. -/
lemma sphere.root_quadratic {s : sphere} {r : ray} {root : ℝ}
    (hd : ¬ s.hitDisc r < 0) (ha : s.hitA r ≠ 0)
    (hroot : root = s.root1 r ∨ root = s.root2 r) :
    s.hitA r * (root * root) - 2 * root * s.hitH r + s.hitC r = 0 := by
  have hsq : Real.sqrt (s.hitDisc r) * Real.sqrt (s.hitDisc r) = s.hitDisc r :=
    Real.mul_self_sqrt (not_lt.mp hd)
  have hdisc_def : s.hitDisc r = s.hitH r * s.hitH r - s.hitA r * s.hitC r :=
    rfl
  have key : ∀ u : ℝ, s.hitA r * root = s.hitH r + u →
      u * u = s.hitDisc r →
      s.hitA r * (s.hitA r * (root * root) - 2 * root * s.hitH r + s.hitC r) = 0 := by
    intro u hu huu
    have expand : s.hitA r * (s.hitA r * (root * root) - 2 * root * s.hitH r + s.hitC r)
        = (s.hitA r * root) * (s.hitA r * root)
          - 2 * (s.hitA r * root) * s.hitH r + s.hitA r * s.hitC r := by
      ring
    rw [expand, hu]
    have : (s.hitH r + u) * (s.hitH r + u) - 2 * (s.hitH r + u) * s.hitH r
        + s.hitA r * s.hitC r = u * u - s.hitDisc r := by
      rw [hdisc_def]; ring
    rw [this, huu, sub_self]
  have hz : s.hitA r * (s.hitA r * (root * root) - 2 * root * s.hitH r + s.hitC r) = 0 := by
    rcases hroot with h1 | h2
    · refine key (-(Real.sqrt (s.hitDisc r))) ?_ (by rw [neg_mul_neg]; exact hsq)
      rw [h1]
      unfold sphere.root1
      field_simp
      ring
    · refine key (Real.sqrt (s.hitDisc r)) ?_ hsq
      rw [h2]
      unfold sphere.root2
      field_simp
  rcases mul_eq_zero.mp hz with h | h
  · exact absurd h ha
  · exact h

/-- C7: a successful `sphere::hit` with positive radius returns a point on
the sphere's surface: the distance from `r.at(t)` to the center equals the
radius. -/
theorem sphere_hit_on_surface {s : sphere} {r : ray} {i : interval}
    {rec out : hit_record} (hpos : 0 < s.radius)
    (h : s.hit r i rec = .ok (true, out)) :
    (r.at out.t - s.center).length = s.radius := by
  obtain ⟨hout, -⟩ := sphere.hit_true_outcome h
  obtain ⟨hp, -⟩ := sphere.outcome_some_picked hout
  obtain ⟨hd, ha, -, hcase⟩ := sphere.pickedRoot_spec hp
  have hroot : out.t = s.root1 r ∨ out.t = s.root2 r := by
    rcases hcase with h1 | ⟨h2, -⟩
    · exact Or.inl h1
    · exact Or.inr h2
  have hq := sphere.root_quadratic hd ha hroot
  have hc_def : s.hitC r = (s.hitOC r).length_squared - s.radius * s.radius :=
    rfl
  have hlsq : (r.at out.t - s.center).length_squared = s.radius * s.radius := by
    rw [sphere.dist_sq_expand]
    rw [hc_def] at hq
    linarith
  unfold vec3.length
  rw [hlsq]
  exact Real.sqrt_mul_self (le_of_lt hpos)

/-- C7 witness: the head-on hit at `t = 1` lands at `(0,0,-1)`, at distance
exactly `1` (the radius) from the center `(0,0,-2)`. -/
theorem sphere_hit_on_surface_witness :
    0 < headOnSphere.radius ∧
      (headOnRay.at (hit_record.mk ⟨0, 0, -1⟩ ⟨0, 0, 1⟩ 1 true).t
          - headOnSphere.center).length = headOnSphere.radius := by
  have h : headOnSphere.hit headOnRay ⟨0, 3⟩ default =
      .ok (true, ⟨⟨0, 0, -1⟩, ⟨0, 0, 1⟩, 1, true⟩) := headOn_hit (by norm_num)
  exact ⟨by norm_num [headOnSphere], sphere_hit_on_surface (by norm_num [headOnSphere]) h⟩

/-- If the aggregate loop returns `false`, no member ever updated the state:
the flag was false from the start and the caller's record is untouched. -/
lemma hittable_list.hitAux_false {r : ray} {tmin : ℝ} :
    ∀ (objects : List sphere) (temp : hit_record) (found : Bool)
      (closest : ℝ) (rec out : hit_record),
      hittable_list.hitAux r tmin objects temp found closest rec =
          .ok (false, out) →
      found = false ∧ out = rec := by
  intro objects
  induction objects with
  | nil =>
    intro temp found closest rec out h
    unfold hittable_list.hitAux at h
    simp only [Except.ok.injEq, Prod.mk.injEq] at h
    exact ⟨h.1, h.2.symm⟩
  | cons o os ih =>
    intro temp found closest rec out h
    unfold hittable_list.hitAux at h
    rcases hres : o.hit r ⟨tmin, closest⟩ temp with e | ⟨b, temp'⟩
    · rw [hres] at h; simp at h
    · rw [hres] at h
      cases b with
      | true => exact absurd (ih temp' true temp'.t temp' out h).1 (by simp)
      | false => exact ih temp' found closest rec out h

/-- C10: if `sphere::hit` returns `false` the record passed in is returned
unchanged, and likewise a `false` return of `hittable_list::hit` leaves the
caller's record exactly as it was. -/
theorem miss_leaves_record_unchanged :
    (∀ (s : sphere) (r : ray) (i : interval) (rec out : hit_record),
        s.hit r i rec = .ok (false, out) → out = rec) ∧
    (∀ (objects : List sphere) (r : ray) (i : interval)
        (rec out : hit_record),
        hittable_list.hit objects r i rec = .ok (false, out) → out = rec) := by
  constructor
  · intro s r i rec out h
    exact (sphere.hit_false_outcome h).1
  · intro objects r i rec out h
    exact (hittable_list.hitAux_false objects default false i.max rec out h).2

/-- The miss scenario used by the C10 witness: the head-on sphere missed by a
ray pointing straight up. -/
def missRay : ray := ⟨⟨0, 0, 0⟩, ⟨0, 1, 0⟩⟩

lemma miss_picked (i : interval) : headOnSphere.pickedRoot missRay i = none := by
  unfold sphere.pickedRoot
  have hd : headOnSphere.hitDisc missRay = -3 := by
    norm_num [sphere.hitDisc, sphere.hitA, sphere.hitH, sphere.hitC,
      sphere.hitOC, headOnSphere, missRay, dot, vec3.length_squared]
  rw [hd]
  norm_num

/-- The non-default record used to observe the frame property. -/
def probeRec : hit_record := ⟨⟨5, 6, 7⟩, ⟨8, 9, 10⟩, 11, true⟩

/-- C10 witness: on the concrete miss, both `sphere::hit` and
`hittable_list::hit` return `false` with the probe record intact. -/
theorem miss_leaves_record_unchanged_witness :
    headOnSphere.hit missRay ⟨0, 100⟩ probeRec = .ok (false, probeRec) ∧
      hittable_list.hit [headOnSphere] missRay ⟨0, 100⟩ probeRec =
        .ok (false, probeRec) ∧
      probeRec = probeRec := by
  have hs : headOnSphere.hit missRay ⟨0, 100⟩ probeRec =
      .ok (false, probeRec) := sphere.hit_picked_none probeRec (miss_picked _)
  have hs' : headOnSphere.hit missRay ⟨(0 : ℝ), 100⟩ default =
      .ok (false, default) := sphere.hit_picked_none default (miss_picked _)
  have hl : hittable_list.hit [headOnSphere] missRay ⟨0, 100⟩ probeRec =
      .ok (false, probeRec) := by
    unfold hittable_list.hit hittable_list.hitAux
    rw [show (interval.mk 0 100).min = (0 : ℝ) from rfl,
      show (interval.mk 0 100).max = (100 : ℝ) from rfl, hs']
    rfl
  refine ⟨hs, hl, (miss_leaves_record_unchanged.2 [headOnSphere] missRay ⟨0, 100⟩ probeRec probeRec hl)⟩

/-- Lagrange's identity for the hit quadratic: `a·|oc|² - h²` is the sum of
the squared cross terms between the direction and `oc`. -/
lemma sphere.lagrange (s : sphere) (r : ray) :
    s.hitA r * (s.hitOC r).length_squared - s.hitH r * s.hitH r =
      (r.dir.x * (s.hitOC r).y - r.dir.y * (s.hitOC r).x) ^ 2 +
      (r.dir.x * (s.hitOC r).z - r.dir.z * (s.hitOC r).x) ^ 2 +
      (r.dir.y * (s.hitOC r).z - r.dir.z * (s.hitOC r).y) ^ 2 := by
  unfold sphere.hitA sphere.hitH vec3.length_squared dot
  ring

/-- For a radius-zero sphere the discriminant is never positive. -/
lemma sphere.disc_nonpos_of_radius_zero {s : sphere} (r : ray)
    (hrad : s.radius = 0) : s.hitDisc r ≤ 0 := by
  have hc : s.hitC r = (s.hitOC r).length_squared := by
    unfold sphere.hitC
    rw [hrad]
    ring
  have hl := sphere.lagrange s r
  unfold sphere.hitDisc
  rw [hc]
  nlinarith [sq_nonneg (r.dir.x * (s.hitOC r).y - r.dir.y * (s.hitOC r).x),
    sq_nonneg (r.dir.x * (s.hitOC r).z - r.dir.z * (s.hitOC r).x),
    sq_nonneg (r.dir.y * (s.hitOC r).z - r.dir.z * (s.hitOC r).y)]

/-- If a radius-zero sphere's discriminant is not negative, the ray passes
exactly through the center (at parameter `h/a`). -/
lemma sphere.through_center_of_disc {s : sphere} {r : ray}
    (hrad : s.radius = 0) (hd : ¬ s.hitDisc r < 0) (ha : s.hitA r ≠ 0) :
    r.at (s.hitH r / s.hitA r) = s.center := by
  have hc : s.hitC r = (s.hitOC r).length_squared := by
    unfold sphere.hitC
    rw [hrad]
    ring
  have hzero : s.hitA r * (s.hitOC r).length_squared
      - s.hitH r * s.hitH r = 0 := by
    have h1 : 0 ≤ s.hitA r * (s.hitOC r).length_squared - s.hitH r * s.hitH r := by
      rw [sphere.lagrange]
      positivity
    have h2 : s.hitDisc r ≤ 0 := sphere.disc_nonpos_of_radius_zero r hrad
    unfold sphere.hitDisc at hd h2
    rw [hc] at hd h2
    linarith [not_lt.mp hd]
  have hl := sphere.lagrange s r
  rw [hzero] at hl
  set e1 := r.dir.x * (s.hitOC r).y - r.dir.y * (s.hitOC r).x with he1
  set e2 := r.dir.x * (s.hitOC r).z - r.dir.z * (s.hitOC r).x with he2
  set e3 := r.dir.y * (s.hitOC r).z - r.dir.z * (s.hitOC r).y with he3
  have h1 : e1 = 0 := by nlinarith [sq_nonneg e1, sq_nonneg e2, sq_nonneg e3]
  have h2 : e2 = 0 := by nlinarith [sq_nonneg e1, sq_nonneg e2, sq_nonneg e3]
  have h3 : e3 = 0 := by nlinarith [sq_nonneg e1, sq_nonneg e2, sq_nonneg e3]
  have hax : s.hitA r * (s.hitOC r).x = s.hitH r * r.dir.x := by
    have : s.hitA r * (s.hitOC r).x - s.hitH r * r.dir.x
        = -(r.dir.y * e1) - r.dir.z * e2 := by
      rw [he1, he2]
      unfold sphere.hitA sphere.hitH vec3.length_squared dot
      ring
    rw [h1, h2] at this
    linarith
  have hay : s.hitA r * (s.hitOC r).y = s.hitH r * r.dir.y := by
    have : s.hitA r * (s.hitOC r).y - s.hitH r * r.dir.y
        = r.dir.x * e1 - r.dir.z * e3 := by
      rw [he1, he3]
      unfold sphere.hitA sphere.hitH vec3.length_squared dot
      ring
    rw [h1, h3] at this
    linarith
  have haz : s.hitA r * (s.hitOC r).z = s.hitH r * r.dir.z := by
    have : s.hitA r * (s.hitOC r).z - s.hitH r * r.dir.z
        = r.dir.x * e2 + r.dir.y * e3 := by
      rw [he2, he3]
      unfold sphere.hitA sphere.hitH vec3.length_squared dot
      ring
    rw [h2, h3] at this
    linarith
  have hocx : (s.hitOC r).x = s.center.x - r.orig.x := rfl
  have hocy : (s.hitOC r).y = s.center.y - r.orig.y := rfl
  have hocz : (s.hitOC r).z = s.center.z - r.orig.z := rfl
  unfold ray.at
  have hgoal : ∀ ox cx dx : ℝ, s.hitA r * (cx - ox) = s.hitH r * dx →
      ox + s.hitH r / s.hitA r * dx = cx := by
    intro ox cx dx hx
    field_simp
    nlinarith [hx]
  simp only [vec3_add_def, vec3_smul_def]
  have hx := hgoal r.orig.x s.center.x r.dir.x (by rw [← hocx]; exact hax)
  have hy := hgoal r.orig.y s.center.y r.dir.y (by rw [← hocy]; exact hay)
  have hz := hgoal r.orig.z s.center.z r.dir.z (by rw [← hocz]; exact haz)
  cases hcenter : s.center
  simp only [hcenter] at hx hy hz ⊢
  simp [hx, hy, hz]

lemma sphere.outcome_error_spec {s : sphere} {r : ray} {i : interval}
    {e : String} (h : s.outcome r i = .error e) :
    e = "div-by-zero or divisor too small" ∧
      (∃ root, s.pickedRoot r i = some root) ∧ |s.radius| ≤ denormMin := by
  rcases hp : s.pickedRoot r i with _ | root
  · rw [s.outcome_picked_none hp] at h; simp at h
  · rw [s.outcome_picked_some hp] at h
    by_cases hrad : |s.radius| ≤ denormMin
    · rw [if_pos hrad] at h
      simp only [Except.error.injEq] at h
      exact ⟨h.symm, ⟨root, rfl⟩, hrad⟩
    · rw [if_neg hrad] at h; simp at h

lemma sphere.mk'_radius_zero (c : vec3) : (sphere.mk' c 0).radius = 0 :=
  max_self 0

lemma sphere.mk'_center (c : vec3) (rad : ℝ) : (sphere.mk' c rad).center = c :=
  rfl

/-- C5 (amended): a sphere constructed with radius `0` never reports a hit as
a normal outcome: rays that would hit (which pass exactly through the center
with the line parameter strictly inside the interval) make the outward-normal
division `(p - center)/radius` raise the DivisionByNearZero error instead;
every other ray reports a plain miss, leaving the record untouched; and the
two candidate roots coincide, so two distinct roots are never reported. -/
theorem degenerate_sphere_behavior (c : vec3) (lo hi : ℝ) (r : ray)
    (rec : hit_record) :
    (∀ out, (sphere.mk' c 0).hit r ⟨lo, hi⟩ rec ≠ .ok (true, out)) ∧
    ((sphere.mk' c 0).hit r ⟨lo, hi⟩ rec =
        .error "div-by-zero or divisor too small" → ∃ t, r.at t = c) ∧
    ((¬ ∃ t : ℝ, r.at t = c) →
      (sphere.mk' c 0).hit r ⟨lo, hi⟩ rec = .ok (false, rec)) ∧
    (sphere.mk' c 0).root1 r = (sphere.mk' c 0).root2 r := by
  have hrad0 : (sphere.mk' c 0).radius = 0 := sphere.mk'_radius_zero c
  have hradle : |(sphere.mk' c 0).radius| ≤ denormMin := by
    rw [hrad0]
    simp [le_of_lt denormMin_pos]
  have hnotrue : ∀ out, (sphere.mk' c 0).hit r ⟨lo, hi⟩ rec ≠ .ok (true, out) := by
    intro out h
    obtain ⟨hout, -⟩ := sphere.hit_true_outcome h
    obtain ⟨-, hrad⟩ := sphere.outcome_some_picked hout
    exact hrad hradle
  have hthrough : (sphere.mk' c 0).hit r ⟨lo, hi⟩ rec =
      .error "div-by-zero or divisor too small" → ∃ t, r.at t = c := by
    intro herr
    obtain ⟨-, ⟨root, hp⟩, -⟩ :=
      sphere.outcome_error_spec (sphere.hit_error_outcome herr)
    obtain ⟨hd, ha, -, -⟩ := sphere.pickedRoot_spec hp
    exact ⟨_, sphere.through_center_of_disc hrad0 hd ha⟩
  refine ⟨hnotrue, hthrough, ?_, ?_⟩
  · intro hnot
    rcases hres : (sphere.mk' c 0).hit r ⟨lo, hi⟩ rec with e | ⟨b, out⟩
    · exfalso
      obtain ⟨he, -, -⟩ := sphere.outcome_error_spec (sphere.hit_error_outcome hres)
      rw [he] at hres
      exact hnot (hthrough hres)
    · cases b with
      | true => exact absurd hres (hnotrue out)
      | false =>
        rw [(sphere.hit_false_outcome hres).1]
  · have hd : (sphere.mk' c 0).hitDisc r ≤ 0 :=
      sphere.disc_nonpos_of_radius_zero r hrad0
    have hsq : Real.sqrt ((sphere.mk' c 0).hitDisc r) = 0 := by
      rcases lt_or_eq_of_le hd with hlt | heq
      · exact Real.sqrt_eq_zero_of_nonpos (le_of_lt hlt)
      · rw [heq]
        exact Real.sqrt_zero
    unfold sphere.root1 sphere.root2
    rw [hsq]
    ring_nf

/-- The degenerate scenario: radius-0 sphere at `(0,0,-1)`, hit head on. -/
def degRay : ray := ⟨⟨0, 0, 0⟩, ⟨0, 0, -1⟩⟩

lemma deg_disc : (sphere.mk' ⟨0, 0, -1⟩ 0).hitDisc degRay = 0 := by
  norm_num [sphere.hitDisc, sphere.hitA, sphere.hitH, sphere.hitC,
    sphere.hitOC, sphere.mk', degRay, dot, vec3.length_squared]

lemma deg_hitA : (sphere.mk' ⟨0, 0, -1⟩ 0).hitA degRay = 1 := by
  norm_num [sphere.hitA, sphere.mk', degRay, vec3.length_squared]

lemma deg_root1 : (sphere.mk' ⟨0, 0, -1⟩ 0).root1 degRay = 1 := by
  unfold sphere.root1
  rw [deg_disc, deg_hitA, Real.sqrt_zero]
  norm_num [sphere.hitH, sphere.hitOC, sphere.mk', degRay, dot]

lemma deg_picked :
    (sphere.mk' ⟨0, 0, -1⟩ 0).pickedRoot degRay ⟨0, 2⟩ = some 1 := by
  unfold sphere.pickedRoot
  rw [deg_disc, deg_hitA, deg_root1]
  norm_num [interval.surrounds]

lemma deg_hit_error :
    (sphere.mk' ⟨0, 0, -1⟩ 0).hit degRay ⟨0, 2⟩ default =
      .error "div-by-zero or divisor too small" := by
  have hradle : |(sphere.mk' (⟨0, 0, -1⟩ : vec3) 0).radius| ≤ denormMin := by
    rw [sphere.mk'_radius_zero]
    simp [le_of_lt denormMin_pos]
  rw [sphere.hit_picked_some default deg_picked,
    sphere.hitFinish_error _ _ _ _ hradle]

/-- C5 counterexample: the radius-0 sphere at `(0,0,-1)` queried with the ray
through its center does not report an intersection as a normal non-error
outcome: `sphere::hit` raises the DivisionByNearZero error (from the outward
normal `(p - center)/0`). -/
theorem degenerate_sphere_cex :
    (sphere.mk' ⟨0, 0, -1⟩ 0).hit degRay ⟨0, 2⟩ default =
      .error "div-by-zero or divisor too small" := deg_hit_error

/-- C5 witness: the amended theorem applied at concrete inputs: the
through-center ray makes the division error surface and indeed passes
through the center; the ray straight up misses and returns `false` with the
record unchanged. -/
theorem degenerate_sphere_behavior_witness :
    (∃ t : ℝ, degRay.at t = (⟨0, 0, -1⟩ : vec3)) ∧
      (sphere.mk' ⟨0, 0, -1⟩ 0).hit missRay ⟨0, 2⟩ default =
        .ok (false, default) := by
  constructor
  · exact (degenerate_sphere_behavior ⟨0, 0, -1⟩ 0 2 degRay default).2.1
      deg_hit_error
  · refine (degenerate_sphere_behavior ⟨0, 0, -1⟩ 0 2 missRay default).2.2.1 ?_
    rintro ⟨t, ht⟩
    have hz : (missRay.at t).z = (-1 : ℝ) := by rw [ht]
    rw [ray.at] at hz
    norm_num [missRay] at hz

lemma sphere.outcome_none_picked {s : sphere} {r : ray} {i : interval}
    (h : s.outcome r i = .ok none) : s.pickedRoot r i = none := by
  rcases hp : s.pickedRoot r i with _ | root
  · rfl
  · rw [s.outcome_picked_some hp] at h
    by_cases hrad : |s.radius| ≤ denormMin
    · rw [if_pos hrad] at h; simp at h
    · rw [if_neg hrad] at h; simp at h

lemma sphere.outcome_none_shrink {s : sphere} {r : ray} {lo hi hi' : ℝ}
    (hsub : hi' ≤ hi) (h : s.outcome r ⟨lo, hi⟩ = .ok none) :
    s.outcome r ⟨lo, hi'⟩ = .ok none :=
  sphere.outcome_picked_none
    (sphere.pickedRoot_none_shrink hsub (sphere.outcome_none_picked h))

lemma sphere.outcome_some_shrink_lt {s : sphere} {r : ray}
    {lo hi hi' root : ℝ} (hsub : hi' ≤ hi) (hlt : root < hi')
    (h : s.outcome r ⟨lo, hi⟩ = .ok (some root)) :
    s.outcome r ⟨lo, hi'⟩ = .ok (some root) := by
  obtain ⟨hp, hrad⟩ := sphere.outcome_some_picked h
  rw [sphere.outcome_picked_some (sphere.pickedRoot_some_lt hsub hlt hp),
    if_neg hrad]

lemma sphere.outcome_some_shrink_ge {s : sphere} {r : ray}
    {lo hi hi' root : ℝ} (hge : hi' ≤ root)
    (h : s.outcome r ⟨lo, hi⟩ = .ok (some root)) :
    s.outcome r ⟨lo, hi'⟩ = .ok none := by
  obtain ⟨hp, -⟩ := sphere.outcome_some_picked h
  exact sphere.outcome_picked_none (sphere.pickedRoot_some_ge hge hp)

lemma sphere.outcome_some_reflect {s : sphere} {r : ray}
    {lo hi hi' root : ℝ} (hsub : hi' ≤ hi)
    (h : s.outcome r ⟨lo, hi'⟩ = .ok (some root)) :
    s.outcome r ⟨lo, hi⟩ = .ok (some root) := by
  obtain ⟨hp, hrad⟩ := sphere.outcome_some_picked h
  rw [sphere.outcome_picked_some (sphere.pickedRoot_shrink_reflect hsub hp),
    if_neg hrad]

lemma sphere.outcome_some_surrounds {s : sphere} {r : ray} {i : interval}
    {root : ℝ} (h : s.outcome r i = .ok (some root)) : i.surrounds root :=
  (sphere.pickedRoot_spec (sphere.outcome_some_picked h).1).2.2.1

/-- The master invariant of the `hittable_list::hit` loop.  `P` abstracts
membership in the full object list; the state `(found, closest, rec)` is
constrained by what the processed prefix established, and the conclusions
describe the final result in terms of each member's outcome over the
ORIGINAL search interval `⟨tmin, tmax⟩`. -/
lemma hittable_list.hitAux_spec {r : ray} {tmin tmax : ℝ} (P : sphere → Prop) :
    ∀ (objects : List sphere) (temp : hit_record) (found : Bool)
      (closest : ℝ) (rec : hit_record) (b : Bool) (rec' : hit_record),
      (∀ m ∈ objects, P m) →
      hittable_list.hitAux r tmin objects temp found closest rec =
        .ok (b, rec') →
      closest ≤ tmax →
      (found = false → closest = tmax) →
      (found = true → ∃ m₀, P m₀ ∧
          m₀.outcome r ⟨tmin, tmax⟩ = .ok (some closest) ∧
          rec = m₀.hitRecordAt r closest) →
      ((b = true → rec'.t ≤ closest ∧
          (∃ m₁, P m₁ ∧ m₁.outcome r ⟨tmin, tmax⟩ = .ok (some rec'.t) ∧
            rec' = m₁.hitRecordAt r rec'.t) ∧
          (∀ m ∈ objects, ∀ t', m.outcome r ⟨tmin, tmax⟩ = .ok (some t') →
            rec'.t ≤ t')) ∧
       (b = false → rec' = rec ∧ found = false ∧
          ∀ m ∈ objects, m.outcome r ⟨tmin, tmax⟩ = .ok none)) := by
  intro objects
  induction objects with
  | nil =>
    intro temp found closest rec b rec' hP h hclosest hfalse htrue
    unfold hittable_list.hitAux at h
    simp only [Except.ok.injEq, Prod.mk.injEq] at h
    obtain ⟨hb, hrec⟩ := h
    subst hb
    subst hrec
    constructor
    · intro hbt
      obtain ⟨m₀, hPm₀, hout, hrec₀⟩ := htrue hbt
      refine ⟨?_, ⟨m₀, hPm₀, ?_, ?_⟩, ?_⟩
      · rw [hrec₀, sphere.hitRecordAt_t]
      · rw [hrec₀, sphere.hitRecordAt_t]
        exact hout
      · rw [hrec₀, sphere.hitRecordAt_t]
      · intro m hm
        exact absurd hm (List.not_mem_nil m)
    · intro hbf
      exact ⟨rfl, hbf, fun m hm => absurd hm (List.not_mem_nil m)⟩
  | cons o os ih =>
    intro temp found closest rec b rec' hP h hclosest hfalse htrue
    unfold hittable_list.hitAux at h
    rcases hres : o.hit r ⟨tmin, closest⟩ temp with e | ⟨bo, temp'⟩
    · rw [hres] at h; simp at h
    · rw [hres] at h
      cases bo with
      | true =>
        obtain ⟨houtN, htemp'⟩ := sphere.hit_true_outcome hres
        have hsur := sphere.outcome_some_surrounds houtN
        have htlt : temp'.t < closest := hsur.2
        have houtO : o.outcome r ⟨tmin, tmax⟩ = .ok (some temp'.t) :=
          sphere.outcome_some_reflect hclosest houtN
        have hspec := ih temp' true temp'.t temp' b rec'
          (fun m hm => hP m (List.mem_cons_of_mem o hm)) h
          (le_of_lt (lt_of_lt_of_le htlt hclosest))
          (by intro hcontra; exact absurd hcontra (by simp))
          (fun _ => ⟨o, hP o (List.mem_cons_self o os), houtO, htemp'⟩)
        constructor
        · intro hbt
          obtain ⟨hle, hex, hall⟩ := hspec.1 hbt
          refine ⟨le_of_lt (lt_of_le_of_lt hle htlt), hex, ?_⟩
          intro m hm t' hout'
          rcases List.mem_cons.mp hm with rfl | hmem
          · have ht' : t' = temp'.t := by
              rw [houtO] at hout'
              simpa using hout'.symm
            rw [ht']
            exact hle
          · exact hall m hmem t' hout'
        · intro hbf
          exact absurd (hspec.2 hbf).2.1 (by simp)
      | false =>
        obtain ⟨htemp', houtN⟩ := sphere.hit_false_outcome hres
        have hspec := ih temp' found closest rec b rec'
          (fun m hm => hP m (List.mem_cons_of_mem o hm)) h
          hclosest hfalse htrue
        constructor
        · intro hbt
          obtain ⟨hle, hex, hall⟩ := hspec.1 hbt
          refine ⟨hle, hex, ?_⟩
          intro m hm t' hout'
          rcases List.mem_cons.mp hm with rfl | hmem
          · by_cases hlt : t' < closest
            · exfalso
              have := sphere.outcome_some_shrink_lt hclosest hlt hout'
              rw [houtN] at this
              simp at this
            · exact le_trans hle (not_lt.mp hlt)
          · exact hall m hmem t' hout'
        · intro hbf
          obtain ⟨hrec', hfound, hall⟩ := hspec.2 hbf
          refine ⟨hrec', hfound, ?_⟩
          intro m hm
          rcases List.mem_cons.mp hm with rfl | hmem
          · rw [hfalse hfound] at houtN
            exact houtN
          · exact hall m hmem

/-- C2: when `hittable_list::hit` (over sphere members) returns normally, it
returns `false` exactly when no member has a qualifying intersection inside
the search interval, and on `true` the returned record is the hit record of
a member whose parameter `t` is minimal among all qualifying member hits. -/
theorem hittable_list_nearest_hit (objects : List sphere) (r : ray)
    (ray_t : interval) (rec₀ : hit_record) (b : Bool) (rec' : hit_record)
    (hrun : hittable_list.hit objects r ray_t rec₀ = .ok (b, rec')) :
    (b = false ↔ ∀ m ∈ objects, ∀ out : hit_record,
        m.hit r ray_t default ≠ .ok (true, out)) ∧
    (b = true → ∃ m, m ∈ objects ∧ m.hit r ray_t default = .ok (true, rec') ∧
        ∀ m' ∈ objects, ∀ out : hit_record,
          m'.hit r ray_t default = .ok (true, out) → rec'.t ≤ out.t) := by
  have hrun' : hittable_list.hitAux r ray_t.min objects default false
      ray_t.max rec₀ = .ok (b, rec') := hrun
  have heta : ray_t = ⟨ray_t.min, ray_t.max⟩ := rfl
  have hspec := hittable_list.hitAux_spec (fun m => m ∈ objects) objects
    default false ray_t.max rec₀ b rec' (fun m hm => hm) hrun'
    (le_refl _) (fun _ => rfl) (fun hcontra => Bool.noConfusion hcontra)
  constructor
  · constructor
    · intro hbf m hm out hhit
      have hnone := (hspec.2 hbf).2.2 m hm
      have hsome := (sphere.hit_true_outcome (heta ▸ hhit)).1
      rw [hnone] at hsome
      simp at hsome
    · intro hnohit
      cases hb : b with
      | false => rfl
      | true =>
        exfalso
        obtain ⟨-, ⟨m₁, hm₁, hout₁, -⟩, -⟩ := hspec.1 hb
        have hhit₁ : m₁.hit r ⟨ray_t.min, ray_t.max⟩ default =
            .ok (true, m₁.hitRecordAt r rec'.t) :=
          sphere.hit_of_outcome_some default hout₁
        exact hnohit m₁ hm₁ (m₁.hitRecordAt r rec'.t) (heta ▸ hhit₁)
  · intro hbt
    obtain ⟨-, ⟨m₁, hm₁, hout₁, hrec₁⟩, hall⟩ := hspec.1 hbt
    refine ⟨m₁, hm₁, ?_, ?_⟩
    · have := sphere.hit_of_outcome_some default hout₁
      rw [← hrec₁] at this
      exact heta ▸ this
    · intro m' hm' out hhit
      exact hall m' hm' out.t (sphere.hit_true_outcome (heta ▸ hhit)).1

/-- C6: whenever `hittable_list::hit` (over sphere members) returns `true`
for the search interval `[a, b]`, the returned record's parameter satisfies
`a < t < b` — a hit outside the open interval is never returned. -/
theorem hittable_list_hit_in_interval (objects : List sphere) (r : ray)
    (a b : ℝ) (rec₀ rec' : hit_record)
    (hrun : hittable_list.hit objects r ⟨a, b⟩ rec₀ = .ok (true, rec')) :
    a < rec'.t ∧ rec'.t < b := by
  have hspec := hittable_list.hitAux_spec (fun m => m ∈ objects) objects
    default false b rec₀ true rec' (fun m hm => hm) hrun
    (le_refl _) (fun _ => rfl) (fun hcontra => Bool.noConfusion hcontra)
  obtain ⟨-, ⟨m₁, -, hout₁, -⟩, -⟩ := hspec.1 rfl
  exact sphere.outcome_some_surrounds hout₁

lemma hittable_list.hitAux_cons_true {r : ray} {tmin : ℝ} {o : sphere}
    {os : List sphere} {temp : hit_record} {found : Bool} {closest tnew : ℝ}
    {rec temp' : hit_record}
    (h : o.hit r ⟨tmin, closest⟩ temp = .ok (true, temp'))
    (ht : temp'.t = tnew) :
    hittable_list.hitAux r tmin (o :: os) temp found closest rec =
      hittable_list.hitAux r tmin os temp' true tnew temp' := by
  simp only [hittable_list.hitAux, h]
  rw [ht]

/-- The two-sphere nearest-hit scenario: the farther sphere is listed first,
so the loop first records its hit at `t = 5` and then replaces it by the
nearer sphere's hit at `t = 1`. -/
def farSphere : sphere := ⟨⟨0, 0, -6⟩, 1⟩

lemma far_disc : farSphere.hitDisc headOnRay = 1 := by
  norm_num [sphere.hitDisc, sphere.hitA, sphere.hitH, sphere.hitC,
    sphere.hitOC, farSphere, headOnRay, dot, vec3.length_squared]

lemma far_hitA : farSphere.hitA headOnRay = 1 := by
  norm_num [sphere.hitA, farSphere, headOnRay, vec3.length_squared]

lemma far_root1 : farSphere.root1 headOnRay = 5 := by
  unfold sphere.root1
  rw [far_disc, far_hitA, Real.sqrt_one]
  norm_num [sphere.hitH, sphere.hitOC, farSphere, headOnRay, dot]

lemma far_picked : farSphere.pickedRoot headOnRay ⟨0, 100⟩ = some 5 := by
  unfold sphere.pickedRoot
  rw [far_disc, far_hitA, far_root1]
  norm_num [interval.surrounds]

lemma far_hit : farSphere.hit headOnRay ⟨0, 100⟩ default =
    .ok (true, ⟨⟨0, 0, -5⟩, ⟨0, 0, 1⟩, 5, true⟩) := by
  have hrad : ¬ |farSphere.radius| ≤ denormMin := by
    show ¬ |(1 : ℝ)| ≤ denormMin
    exact not_abs_le_denormMin (by norm_num)
  rw [sphere.hit_picked_some default far_picked,
    sphere.hitFinish_ok _ _ _ _ hrad]
  unfold sphere.hitRecordAt sphere.outwardAt hit_record.set_face_normal
  norm_num [ray.at, farSphere, headOnRay, dot]

lemma near_outcome_5 : headOnSphere.outcome headOnRay ⟨0, 5⟩ =
    .ok (some 1) := by
  have h5 := headOn_hit (show (1 : ℝ) < 5 by norm_num)
  exact (sphere.hit_true_outcome h5).1

lemma near_record_eq :
    headOnSphere.hitRecordAt headOnRay 1 =
      (⟨⟨0, 0, -1⟩, ⟨0, 0, 1⟩, 1, true⟩ : hit_record) := by
  have h5 := headOn_hit (show (1 : ℝ) < 5 by norm_num)
  exact ((sphere.hit_true_outcome h5).2).symm

lemma list_two_eval :
    hittable_list.hit [farSphere, headOnSphere] headOnRay ⟨0, 100⟩ default =
      .ok (true, ⟨⟨0, 0, -1⟩, ⟨0, 0, 1⟩, 1, true⟩) := by
  have hfar : farSphere.hit headOnRay ⟨(⟨0, 100⟩ : interval).min,
      (⟨0, 100⟩ : interval).max⟩ default =
      .ok (true, ⟨⟨0, 0, -5⟩, ⟨0, 0, 1⟩, 5, true⟩) := far_hit
  have hnear : headOnSphere.hit headOnRay
      ⟨(⟨0, 100⟩ : interval).min, 5⟩
      (⟨⟨0, 0, -5⟩, ⟨0, 0, 1⟩, 5, true⟩ : hit_record) =
      .ok (true, ⟨⟨0, 0, -1⟩, ⟨0, 0, 1⟩, 1, true⟩) := by
    have h2 := sphere.hit_of_outcome_some
      (⟨⟨0, 0, -5⟩, ⟨0, 0, 1⟩, 5, true⟩ : hit_record) near_outcome_5
    rw [near_record_eq] at h2
    exact h2
  rw [hittable_list.hit,
    hittable_list.hitAux_cons_true hfar
      (show (⟨⟨0, 0, -5⟩, ⟨0, 0, 1⟩, 5, true⟩ : hit_record).t = 5 from rfl),
    hittable_list.hitAux_cons_true hnear
      (show (⟨⟨0, 0, -1⟩, ⟨0, 0, 1⟩, 1, true⟩ : hit_record).t = 1 from rfl)]
  rfl

/-- C2 witness: on the two-sphere scene the aggregate returns the nearer
hit (`t = 1`), which is the member hit of minimum `t`. -/
theorem hittable_list_nearest_hit_witness :
    ∃ m, m ∈ [farSphere, headOnSphere] ∧
      m.hit headOnRay ⟨0, 100⟩ default =
        .ok (true, ⟨⟨0, 0, -1⟩, ⟨0, 0, 1⟩, 1, true⟩) ∧
      ∀ m' ∈ [farSphere, headOnSphere], ∀ out : hit_record,
        m'.hit headOnRay ⟨0, 100⟩ default = .ok (true, out) →
          (hit_record.mk ⟨0, 0, -1⟩ ⟨0, 0, 1⟩ 1 true).t ≤ out.t :=
  (hittable_list_nearest_hit [farSphere, headOnSphere] headOnRay ⟨0, 100⟩
    default true ⟨⟨0, 0, -1⟩, ⟨0, 0, 1⟩, 1, true⟩ list_two_eval).2 rfl

lemma list_single_eval :
    hittable_list.hit [headOnSphere] headOnRay ⟨0, 100⟩ default =
      .ok (true, ⟨⟨0, 0, -1⟩, ⟨0, 0, 1⟩, 1, true⟩) := by
  have h1 : headOnSphere.hit headOnRay ⟨(⟨0, 100⟩ : interval).min,
      (⟨0, 100⟩ : interval).max⟩ default =
      .ok (true, ⟨⟨0, 0, -1⟩, ⟨0, 0, 1⟩, 1, true⟩) :=
    headOn_hit (by norm_num)
  rw [hittable_list.hit,
    hittable_list.hitAux_cons_true h1
      (show (⟨⟨0, 0, -1⟩, ⟨0, 0, 1⟩, 1, true⟩ : hit_record).t = 1 from rfl)]
  rfl

/-- C6 witness: the single-sphere aggregate queried over `[0, 100]` returns
its hit at `t = 1`, strictly inside the open interval. -/
theorem hittable_list_hit_in_interval_witness :
    (0 : ℝ) < (hit_record.mk ⟨0, 0, -1⟩ ⟨0, 0, 1⟩ 1 true).t ∧
      (hit_record.mk ⟨0, 0, -1⟩ ⟨0, 0, 1⟩ 1 true).t < 100 :=
  hittable_list_hit_in_interval [headOnSphere] headOnRay 0 100 default
    ⟨⟨0, 0, -1⟩, ⟨0, 0, 1⟩, 1, true⟩ list_single_eval

/-- C4 (amended): for every ray whose direction normalizes without error and
which misses the hard-coded sphere, `ray_color` returns the blend
`(1-a)*white + a*(0.5,0.7,1.0)` with `a = 0.5*(unit_y + 2.0)`; this
coefficient lies in `[0.5, 1.5]`, not in `[0, 1]`. -/
theorem ray_color_miss_gradient (r : ray)
    (hlen : ¬ |r.dir.length| ≤ denormMin)
    (hmiss : hit_sphere ⟨0, 0, -1⟩ 0.5 r = false) :
    ∃ u : vec3, unit_vector r.dir = .ok u ∧
      ray_color r = .ok ((1.0 - miss_blend_coeff u) * white +
        miss_blend_coeff u * (⟨0.5, 0.7, 1.0⟩ : vec3)) ∧
      0.5 ≤ miss_blend_coeff u ∧ miss_blend_coeff u ≤ 1.5 := by
  have hlpos : 0 < r.dir.length := by
    rcases lt_or_le 0 r.dir.length with h | h
    · exact h
    · exfalso
      apply hlen
      have : r.dir.length = 0 :=
        le_antisymm h (vec3.length_nonneg r.dir)
      rw [this]
      simp [le_of_lt denormMin_pos]
  have huv : unit_vector r.dir = .ok (r.dir * (1 / r.dir.length)) := by
    unfold unit_vector vdiv
    rw [if_neg hlen, if_neg hlen]
  set u : vec3 := r.dir * (1 / r.dir.length) with hu
  have huy : |u.y| ≤ 1 := by
    have hyle : |r.dir.y| ≤ r.dir.length := by
      have h1 : r.dir.y * r.dir.y ≤ r.dir.length_squared := by
        unfold vec3.length_squared
        nlinarith [mul_self_nonneg r.dir.x, mul_self_nonneg r.dir.z]
      have h2 := Real.sqrt_le_sqrt h1
      rw [show r.dir.y * r.dir.y = |r.dir.y| ^ 2 by
        rw [sq_abs]; ring] at h2
      rw [Real.sqrt_sq (abs_nonneg _)] at h2
      exact h2
    have huy_eq : u.y = r.dir.y * (1 / r.dir.length) := by
      rw [hu]
      simp
      ring
    rw [huy_eq, abs_mul, abs_of_nonneg (by positivity :
      (0 : ℝ) ≤ 1 / r.dir.length)]
    calc |r.dir.y| * (1 / r.dir.length)
        = |r.dir.y| / r.dir.length := by ring
      _ ≤ 1 := by
          rw [div_le_one hlpos]
          exact hyle
  refine ⟨u, huv, ?_, ?_, ?_⟩
  · unfold ray_color
    rw [huv]
    simp only [hmiss, Bool.false_eq_true, if_false]
  · unfold miss_blend_coeff
    have := abs_le.mp huy
    linarith [this.1]
  · unfold miss_blend_coeff
    have := abs_le.mp huy
    linarith [this.2]

lemma up_length : (⟨0, 1, 0⟩ : vec3).length = 1 := by
  unfold vec3.length vec3.length_squared
  norm_num

lemma up_unit : unit_vector (⟨0, 1, 0⟩ : vec3) = .ok ⟨0, 1, 0⟩ := by
  have hlen : ¬ |(⟨0, 1, 0⟩ : vec3).length| ≤ denormMin := by
    rw [up_length]
    exact not_abs_le_denormMin (by norm_num)
  unfold unit_vector vdiv
  rw [if_neg hlen, if_neg hlen, up_length]
  norm_num

lemma up_miss : hit_sphere ⟨0, 0, -1⟩ 0.5 missRay = false := by
  norm_num [hit_sphere, missRay, dot]

lemma ray_color_up : ray_color missRay = .ok ⟨0.25, 0.55, 1⟩ := by
  unfold ray_color
  rw [show missRay.dir = (⟨0, 1, 0⟩ : vec3) from rfl, up_unit]
  simp only [up_miss, Bool.false_eq_true, if_false]
  norm_num [miss_blend_coeff, white]

/-- C4 counterexample: for the upward ray (a miss), the normalized direction
is `(0,1,0)` and the code's blend coefficient `0.5*(y + 2.0)` equals `1.5`,
outside `[0,1]`; the returned color `(0.25, 0.55, 1)` is not a blend
`(1-a)*white + a*sky` for any `a ∈ [0,1]`. -/
theorem ray_color_coeff_cex :
    miss_blend_coeff ⟨0, 1, 0⟩ = 1.5 ∧
      unit_vector missRay.dir = .ok ⟨0, 1, 0⟩ ∧
      hit_sphere ⟨0, 0, -1⟩ 0.5 missRay = false ∧
      ray_color missRay = .ok ⟨0.25, 0.55, 1⟩ ∧
      ¬ ∃ a : ℝ, 0 ≤ a ∧ a ≤ 1 ∧
        (1.0 - a) * white + a * (⟨0.5, 0.7, 1.0⟩ : vec3) = ⟨0.25, 0.55, 1⟩ := by
  refine ⟨by norm_num [miss_blend_coeff], up_unit, up_miss, ray_color_up, ?_⟩
  rintro ⟨a, h0, h1, heq⟩
  have hx := congrArg vec3.x heq
  simp [white] at hx
  linarith

/-- C4 witness: the amended theorem applied to the upward miss ray. -/
theorem ray_color_miss_gradient_witness :
    ∃ u : vec3, unit_vector missRay.dir = .ok u ∧
      ray_color missRay = .ok ((1.0 - miss_blend_coeff u) * white +
        miss_blend_coeff u * (⟨0.5, 0.7, 1.0⟩ : vec3)) ∧
      0.5 ≤ miss_blend_coeff u ∧ miss_blend_coeff u ≤ 1.5 := by
  apply ray_color_miss_gradient
  · rw [show missRay.dir = (⟨0, 1, 0⟩ : vec3) from rfl, up_length]
    exact not_abs_le_denormMin (by norm_num)
  · exact up_miss

lemma image_height_eq : image_height = 450 := by
  unfold image_height castInt
  rw [show ((800 : ℝ) / (16.0 / 9.0)) = ((450 : ℤ) : ℝ) by norm_num,
    if_pos (by norm_num : (0 : ℝ) ≤ ((450 : ℤ) : ℝ)), Int.floor_intCast]
  norm_num

/-- The concrete values the camera setup computes. -/
def pdu0 : vec3 := ⟨1 / 225, 0, 0⟩

def pdv0 : vec3 := ⟨0, -1 / 225, 0⟩

def p000 : vec3 := ⟨-16 / 9 + 1 / 450, 1 - 1 / 450, -1⟩

lemma vdiv_u_800 : vdiv viewport_u 800 = .ok pdu0 := by
  unfold vdiv viewport_u viewport_width
  rw [image_height_eq, if_neg (not_abs_le_denormMin (by norm_num))]
  norm_num [pdu0]

lemma vdiv_v_h : vdiv viewport_v ((image_height : ℤ) : ℝ) = .ok pdv0 := by
  unfold vdiv viewport_v
  rw [image_height_eq]
  rw [if_neg (not_abs_le_denormMin (by norm_num))]
  norm_num [pdv0]

lemma vdiv_u_2 : vdiv viewport_u 2 = .ok ⟨16 / 9, 0, 0⟩ := by
  unfold vdiv viewport_u viewport_width
  rw [image_height_eq, if_neg (not_abs_le_denormMin (by norm_num))]
  norm_num

lemma vdiv_v_2 : vdiv viewport_v 2 = .ok ⟨0, -1, 0⟩ := by
  unfold vdiv viewport_v
  rw [if_neg (not_abs_le_denormMin (by norm_num))]
  norm_num

lemma cameraSetup_eq : cameraSetup = .ok (pdu0, pdv0, p000) := by
  unfold cameraSetup
  rw [show ((image_height : ℤ) : ℝ) = ((image_height : ℤ) : ℝ) from rfl]
  simp only [bind, Except.bind, vdiv_u_800, vdiv_v_h, vdiv_u_2, vdiv_v_2,
    pure, Except.pure, camera_center]
  simp only [Except.ok.injEq, Prod.mk.injEq]
  norm_num [p000, pdu0, pdv0]

lemma pixelRay_dir_z (row col : ℕ) :
    (pixelRay pdu0 pdv0 p000 row col).dir.z = -1 := by
  unfold pixelRay camera_center pdu0 pdv0 p000
  norm_num

/-- A ray whose direction has `z = -1` always resolves to a color:
its length is at least 1, so normalization cannot throw, and both blend
branches are total. -/
lemma ray_color_ok_of_z (r : ray) (hz : r.dir.z = -1) :
    ∃ c, ray_color r = .ok c := by
  have hlen1 : 1 ≤ r.dir.length := by
    have hsq : (1 : ℝ) ≤ r.dir.length_squared := by
      unfold vec3.length_squared
      rw [hz]
      nlinarith [mul_self_nonneg r.dir.x, mul_self_nonneg r.dir.y]
    have := Real.sqrt_le_sqrt hsq
    rw [Real.sqrt_one] at this
    exact this
  have hguard : ¬ |r.dir.length| ≤ denormMin :=
    not_abs_le_denormMin (by
      rw [abs_of_nonneg (vec3.length_nonneg r.dir)]
      exact hlen1)
  have huv : unit_vector r.dir = .ok (r.dir * (1 / r.dir.length)) := by
    unfold unit_vector vdiv
    rw [if_neg hguard, if_neg hguard]
  unfold ray_color
  rw [huv]
  cases hhit : hit_sphere ⟨0, 0, -1⟩ 0.5 r with
  | true => exact ⟨_, rfl⟩
  | false => exact ⟨_, rfl⟩

/-- The color each pixel resolves to (the `.ok` payload of `ray_color`;
the render loop never reaches the error case). -/
def pixelColor (pdu pdv p00 : vec3) (row col : ℕ) : vec3 :=
  match ray_color (pixelRay pdu pdv p00 row col) with
  | .error _ => ⟨0, 0, 0⟩
  | .ok c => c

lemma renderPixels_eq_map (pdu pdv p00 : vec3) :
    ∀ l : List (ℕ × ℕ),
      (∀ p ∈ l, ∃ c, ray_color (pixelRay pdu pdv p00 p.1 p.2) = .ok c) →
      renderPixels pdu pdv p00 l =
        l.map fun p =>
          outLine.pixel (write_color (pixelColor pdu pdv p00 p.1 p.2)) := by
  intro l
  induction l with
  | nil => intro _; rfl
  | cons hd rest ih =>
    intro h
    obtain ⟨c, hc⟩ := h hd (List.mem_cons_self hd rest)
    have hpc : pixelColor pdu pdv p00 hd.1 hd.2 = c := by
      unfold pixelColor
      rw [hc]
    unfold renderPixels
    rw [hc, List.map_cons]
    dsimp only
    rw [hpc, ih (fun q hq => h q (List.mem_cons_of_mem hd hq))]

lemma rowMajor_length (h w : ℕ) : (rowMajor h w).length = h * w := by
  unfold rowMajor
  rw [List.length_flatMap]
  simp [Function.comp_def]

/-- C9: the program's output stream is exactly the three header lines — `P3`,
the dimensions `800 450`, the channel range `255` — emitted once and before
any pixel line, followed by one pixel line per pixel in row-major
top-to-bottom left-to-right order, `450 * 800` lines in total, each carrying
three integers in `[0, 255]`. -/
theorem main_wire_format :
    mainOutput = outLine.headerP3 :: outLine.headerDims 800 450 ::
        outLine.headerMax 255.0 ::
        ((rowMajor 450 800).map fun p =>
          outLine.pixel (write_color (pixelColor pdu0 pdv0 p000 p.1 p.2))) ∧
      (rowMajor 450 800).length = 450 * 800 ∧
      ∀ p ∈ rowMajor 450 800,
        0 ≤ (write_color (pixelColor pdu0 pdv0 p000 p.1 p.2)).1 ∧
        (write_color (pixelColor pdu0 pdv0 p000 p.1 p.2)).1 ≤ 255 ∧
        0 ≤ (write_color (pixelColor pdu0 pdv0 p000 p.1 p.2)).2.1 ∧
        (write_color (pixelColor pdu0 pdv0 p000 p.1 p.2)).2.1 ≤ 255 ∧
        0 ≤ (write_color (pixelColor pdu0 pdv0 p000 p.1 p.2)).2.2 ∧
        (write_color (pixelColor pdu0 pdv0 p000 p.1 p.2)).2.2 ≤ 255 := by
  refine ⟨?_, rowMajor_length 450 800, fun p _ => write_color_bounds _⟩
  have hok : ∀ p ∈ rowMajor 450 800,
      ∃ c, ray_color (pixelRay pdu0 pdv0 p000 p.1 p.2) = .ok c :=
    fun p _ => ray_color_ok_of_z _ (pixelRay_dir_z p.1 p.2)
  unfold mainOutput
  rw [cameraSetup_eq]
  dsimp only
  rw [image_height_eq]
  rw [show Int.toNat 450 = 450 from rfl]
  rw [renderPixels_eq_map pdu0 pdv0 p000 (rowMajor 450 800) hok]
